import Mathlib

/-!
Verification of the DNS request-handling core of `rust-hole`
(`src/rust-hole-core/src/dns/server.rs`).

The development shallowly embeds the data model (`CacheKey`, `CacheEntry`,
`PendingQuery`) and the body of `DnsBlocker::handle_request` as pure Lean
functions: instants are natural numbers, the shared cache is an association
list, and the points where the real code interacts with the outside world
(the oneshot receiver a follower awaits, the upstream resolver result the
leader obtains) are explicit parameters.  The anti-stampede coordination is
additionally modelled as a small labelled transition system over the pending
map so that interleavings of concurrent requests can be quantified over.
-/

namespace RustHole

/-- DNS record types.  Only `HTTPS` is treated specially by the handler
(`RecordType::HTTPS => RecordType::A` when building the cache key); all other
types behave uniformly, so a small representative set suffices. -/
inductive RecordType where
  | A
  | AAAA
  | HTTPS
  | TXT
deriving DecidableEq, Repr

/-- A resource record as the handler sees it: a TTL in seconds and the rdata.
`hickory`'s `Record::data()` returns an `Option`, which the cache-hit log line
unwraps; we keep the `Option` to model that. -/
structure Record where
  ttl : Nat
  rdata : Option String
deriving DecidableEq, Repr

/-- `struct CacheKey { domain: String, record_type: RecordType }` with
structural equality and hashing. -/
structure CacheKey where
  domain : String
  record_type : RecordType
deriving DecidableEq, Repr

/-- `struct CacheEntry { records: Vec<Record>, expires_at: Instant }`;
instants are modelled as naturals (seconds since some origin). -/
structure CacheEntry where
  records : List Record
  expires_at : Nat
deriving DecidableEq, Repr

/-- The shared `HashMap<CacheKey, CacheEntry>` as an association list with at
most one binding per key maintained by `alInsert`/`alRemove`. -/
abbrev Cache := List (CacheKey × CacheEntry)

/-- Lookup in the association-list cache (`HashMap::get`). -/
def alLookup : Cache → CacheKey → Option CacheEntry
  | [], _ => none
  | (k', e) :: rest, k => if k' = k then some e else alLookup rest k

/-- Removal from the association-list cache (`HashMap::remove`). -/
def alRemove : Cache → CacheKey → Cache
  | [], _ => []
  | (k', e) :: rest, k =>
      if k' = k then alRemove rest k else (k', e) :: alRemove rest k

/-- Insert-or-replace (`HashMap::insert`). -/
def alInsert (c : Cache) (k : CacheKey) (e : CacheEntry) : Cache :=
  (k, e) :: alRemove c k

/-- DNS response codes used by the handler. -/
inductive ResponseCode where
  | NoError
  | NXDomain
  | ServFail
deriving DecidableEq, Repr

/-- The header fields the handler touches: the client-supplied transaction id
and the response code.  Every response path clones the request header and then
calls `set_response_code`, leaving the id untouched. -/
structure Header where
  id : Nat
  response_code : ResponseCode
deriving DecidableEq, Repr

/-- A decoded query: header, question name (as printed, possibly with a
trailing dot) and question type. -/
structure Request where
  header : Header
  qname : String
  qtype : RecordType
deriving DecidableEq, Repr

/-- `query.name().to_string().trim_end_matches('.')`: remove every trailing
dot character. -/
def normalizeDomain (s : String) : String :=
  ⟨(s.data.reverse.dropWhile (fun c => c = '.')).reverse⟩

/-- `DnsBlocker::is_blocked`:
`self.blocked.iter().any(|d| domain.ends_with(d))` — `str::ends_with` is a
plain character-wise suffix test, modelled on the underlying character
lists. -/
def is_blocked (blocked : List String) (domain : String) : Bool :=
  blocked.any fun d => d.data.isSuffixOf domain.data

/-- The `match` on `query.query_type()` used to build the cache key:
`RecordType::HTTPS => RecordType::A, other => other`. -/
def cacheKeyType : RecordType → RecordType
  | .HTTPS => .A
  | t => t

/-- The `CacheKey` built by `handle_request` from a decoded query. -/
def requestCacheKey (req : Request) : CacheKey :=
  { domain := normalizeDomain req.qname, record_type := cacheKeyType req.qtype }

/-- The cache-read block of `handle_request` (the `cached_records` binding):
a fresh entry is returned and left in place, an expired entry is removed and
`none` is returned. -/
def cacheGet (cache : Cache) (k : CacheKey) (now : Nat) :
    Option (List Record) × Cache :=
  match alLookup cache k with
  | some entry =>
      if now < entry.expires_at then (some entry.records, cache)
      else (none, alRemove cache k)
  | none => (none, cache)

/-- `records.iter().map(|r| r.ttl()).min().unwrap_or(60)`. -/
def minTtl (records : List Record) : Nat :=
  match records.map Record.ttl with
  | [] => 60
  | t :: ts => ts.foldl min t

/-- Observable steps of one `handle_request` invocation, in program order. -/
inductive Event where
  | cacheRead
  | blockCheck
  | upstreamCall
deriving DecidableEq, Repr

/-- A response as sent through the `ResponseHandler`: the (cloned, recoded)
header and the answer section. -/
structure Response where
  header : Header
  answers : List Record
deriving DecidableEq, Repr

/-- `let mut header = request.header().clone(); header.set_response_code(rc);
builder.build(header, answers, ...)`. -/
def respond (req : Request) (rc : ResponseCode) (answers : List Record) :
    Response :=
  { header := { req.header with response_code := rc }, answers := answers }

/-- Everything observable about one `handle_request` invocation: the response
sent, whether the invocation then panicked (the cache-hit log line calls
`r.data().unwrap()` after sending), the cache afterwards, whether a
`PendingQuery` entry for this request's key is present afterwards, the query
type passed to the upstream resolver (if it was called), and the trace of
observable steps. -/
structure HandlerOutcome where
  response : Response
  panicked : Bool
  cache : Cache
  pendingAfter : Bool
  upstreamQtype : Option RecordType
  trace : List Event
deriving DecidableEq, Repr

/-- Shallow embedding of `DnsBlocker::handle_request` for a single in-flight
request.  `pendingHasKey` says whether the pending map holds an entry for this
request's key at the claim step; `followerResult` is what the oneshot receiver
yields if this request becomes a follower (`some records` for `Ok`, `none` for
a dropped sender); `upstream` is the resolver outcome if this request becomes
the leader.  The body follows the source line by line: cache read first, then
blocklist check, then the anti-stampede claim, then the forward. -/
def handleRequest (blocked : List String) (cache : Cache)
    (pendingHasKey : Bool) (followerResult : Option (List Record))
    (upstream : Except Unit (List Record)) (now : Nat) (req : Request) :
    HandlerOutcome :=
  match cacheGet cache (requestCacheKey req) now with
  | (some records, cache1) =>
      { response := respond req .NoError records
        panicked := records.any fun r => r.rdata.isNone
        cache := cache1
        pendingAfter := pendingHasKey
        upstreamQtype := none
        trace := [.cacheRead] }
  | (none, cache1) =>
      if is_blocked blocked (normalizeDomain req.qname) then
        { response := respond req .NXDomain []
          panicked := false
          cache := alInsert cache1 (requestCacheKey req) ⟨[], now + 60⟩
          pendingAfter := pendingHasKey
          upstreamQtype := none
          trace := [.cacheRead, .blockCheck] }
      else if pendingHasKey then
        match followerResult with
        | some records =>
            { response := respond req .NoError records
              panicked := false
              cache := cache1
              pendingAfter := true
              upstreamQtype := none
              trace := [.cacheRead, .blockCheck] }
        | none =>
            { response := respond req .ServFail []
              panicked := false
              cache := cache1
              pendingAfter := true
              upstreamQtype := none
              trace := [.cacheRead, .blockCheck] }
      else
        match upstream with
        | .ok records =>
            { response := respond req .NoError records
              panicked := false
              cache := alInsert cache1 (requestCacheKey req) ⟨records, now + minTtl records⟩
              pendingAfter := false
              upstreamQtype := some req.qtype
              trace := [.cacheRead, .blockCheck, .upstreamCall] }
        | .error _ =>
            { response := respond req .ServFail []
              panicked := false
              cache := cache1
              pendingAfter := false
              upstreamQtype := some req.qtype
              trace := [.cacheRead, .blockCheck, .upstreamCall] }

/-!
### The anti-stampede coordinator as a transition system

One `CacheKey` is fixed.  A task is one `handle_request` invocation that has
already read the cache (miss) and passed the blocklist check, and is about to
execute the claim step (the block that locks `pending`).  The pending map is
modelled for this key by `pendingExists` (the `HashMap` can hold at most one
entry per key by construction, so a `Bool` is exact); `delivered` records what
the leader's removal of the `PendingQuery` did to the registered oneshot
channels: `some (some r)` once `tx.send(records)` ran for each waiter,
`some none` once the senders were dropped (the upstream-error path), `none`
while no resolution has completed. -/

/-- Final outcome of a task, as sent to its client. -/
inductive Outcome where
  | noErr (records : List Record)
  | servFail
deriving DecidableEq, Repr

/-- Where a task is in its `handle_request` execution. -/
inductive Phase where
  | start
  | leader
  | follower
  | done (o : Outcome)
deriving DecidableEq, Repr

/-- Global state of one miss episode for one key. -/
structure SFState where
  tasks : List Phase
  pendingExists : Bool
  delivered : Option (Option (List Record))
  upstreamCalls : Nat
  cacheK : Option (List Record)
deriving DecidableEq, Repr

/-- Scheduler actions: task `i` executes its claim step, its upstream
resolution (leader only), or its wake-up from the oneshot receiver
(follower only). -/
inductive Act where
  | claim (i : Nat)
  | resolve (i : Nat)
  | wake (i : Nat)
deriving DecidableEq, Repr

/-- The outcome the single upstream result dictates for every caller. -/
def expectedOutcome (u : Except Unit (List Record)) : Outcome :=
  match u with
  | .ok r => .noErr r
  | .error _ => .servFail

/-- What reaches the waiters' channels when the leader finishes. -/
def deliverOf (u : Except Unit (List Record)) : Option (List Record) :=
  match u with
  | .ok r => some r
  | .error _ => none

/-- Initial state: `n` tasks all past the cache miss, nothing pending,
no cache entry for the key. -/
def SFState.init (n : Nat) : SFState :=
  { tasks := List.replicate n .start
    pendingExists := false
    delivered := none
    upstreamCalls := 0
    cacheK := none }

/-- One scheduler step.  An action whose task is not in the right phase is a
no-op (such a schedule simply does not occur).  `u` is the upstream resolver's
answer for this episode's single lookup. -/
def step (u : Except Unit (List Record)) (s : SFState) : Act → SFState
  | .claim i =>
      match s.tasks[i]? with
      | some .start =>
          if s.pendingExists then
            { s with tasks := s.tasks.set i .follower }
          else
            { s with tasks := s.tasks.set i .leader, pendingExists := true }
      | _ => s
  | .resolve i =>
      match s.tasks[i]? with
      | some .leader =>
          match u with
          | .ok r =>
              { s with tasks := s.tasks.set i (.done (.noErr r))
                       pendingExists := false
                       delivered := some (some r)
                       upstreamCalls := s.upstreamCalls + 1
                       cacheK := some r }
          | .error _ =>
              { s with tasks := s.tasks.set i (.done .servFail)
                       pendingExists := false
                       delivered := some none
                       upstreamCalls := s.upstreamCalls + 1 }
      | _ => s
  | .wake i =>
      match s.tasks[i]? with
      | some .follower =>
          match s.delivered with
          | some (some r) => { s with tasks := s.tasks.set i (.done (.noErr r)) }
          | some none => { s with tasks := s.tasks.set i (.done .servFail) }
          | none => s
      | _ => s

/-- Run a whole schedule. -/
def runSF (u : Except Unit (List Record)) (s : SFState) : List Act → SFState
  | [] => s
  | a :: rest => runSF u (step u s a) rest

/-- Is this action a claim step? -/
def Act.isClaim : Act → Bool
  | .claim _ => true
  | _ => false

/-- Is this action a leader resolution? -/
def Act.isResolve : Act → Bool
  | .resolve _ => true
  | _ => false

/-- No claim step occurs anywhere in the schedule. -/
def noClaims : List Act → Bool
  | [] => true
  | a :: rest => !a.isClaim && noClaims rest

/-- Every claim step precedes every resolution: all the concurrent requests
reach the coordinator during the single miss episode (this is the meaning of
"N concurrent queries arriving while no cache entry exists"). -/
def claimsFirst : List Act → Bool
  | [] => true
  | a :: rest => if a.isResolve then noClaims rest else claimsFirst rest

/-- The coordination invariant of one miss episode, relative to the episode's
upstream answer `u`: the pending entry is the mutual-exclusion token (no entry
⇒ no leader, and never two leaders), at most one upstream call is made, and
everything delivered or finished agrees with the single upstream answer. -/
structure SFInv (u : Except Unit (List Record)) (s : SFState) : Prop where
  leader_unique : ∀ i j : Nat, s.tasks[i]? = some Phase.leader →
    s.tasks[j]? = some Phase.leader → i = j
  no_pending_no_leader : s.pendingExists = false →
    ∀ i : Nat, s.tasks[i]? ≠ some Phase.leader
  calls_le : s.upstreamCalls ≤ 1
  delivered_none : s.upstreamCalls = 0 → s.delivered = none
  resolved_no_leader : s.upstreamCalls ≠ 0 →
    ∀ i : Nat, s.tasks[i]? ≠ some Phase.leader
  delivered_ok : ∀ d, s.delivered = some d → d = deliverOf u
  done_ok : ∀ (i : Nat) (o : Outcome), s.tasks[i]? = some (Phase.done o) →
    o = expectedOutcome u

/-! ### Helper lemmas -/

theorem alLookup_alRemove_self (c : Cache) (k : CacheKey) :
    alLookup (alRemove c k) k = none := by
  induction c with
  | nil => rfl
  | cons he rest ih =>
      obtain ⟨k', e⟩ := he
      by_cases h : k' = k
      · simp [alRemove, h, ih]
      · simp [alRemove, alLookup, h, ih]

theorem alLookup_alInsert_self (c : Cache) (k : CacheKey) (e : CacheEntry) :
    alLookup (alInsert c k e) k = some e := by
  simp [alInsert, alLookup]

theorem alLookup_alRemove_ne (c : Cache) (k k' : CacheKey) (h : k ≠ k') :
    alLookup (alRemove c k) k' = alLookup c k' := by
  induction c with
  | nil => rfl
  | cons he rest ih =>
      obtain ⟨k'', e'⟩ := he
      by_cases h2 : k'' = k
      · subst h2
        simp [alRemove, alLookup, if_neg h, ih]
      · by_cases h3 : k'' = k' <;>
          simp [alRemove, alLookup, h2, h3, Ne.symm h, ih]

theorem alLookup_alInsert_ne (c : Cache) (k k' : CacheKey) (e : CacheEntry)
    (h : k ≠ k') : alLookup (alInsert c k e) k' = alLookup c k' := by
  simp [alInsert, alLookup, if_neg h, alLookup_alRemove_ne c k k' h]

/-- After a miss, the key is absent from the returned cache (either it was
never there, or the expired entry was just removed). -/
theorem cacheGet_miss_lookup (cache : Cache) (k : CacheKey) (now : Nat)
    (h : (cacheGet cache k now).1 = none) :
    alLookup (cacheGet cache k now).2 k = none := by
  unfold cacheGet at *
  cases hl : alLookup cache k with
  | none => simp [hl]
  | some e =>
      simp only [hl] at h ⊢
      by_cases hf : now < e.expires_at
      · simp [hf] at h
      · simp [hf, alLookup_alRemove_self]

/-- Path lemma: cache hit. -/
theorem handleRequest_hit (blocked : List String) (cache : Cache) (p : Bool)
    (fr : Option (List Record)) (u : Except Unit (List Record)) (now : Nat)
    (req : Request) (recs : List Record) (c1 : Cache)
    (h : cacheGet cache (requestCacheKey req) now = (some recs, c1)) :
    handleRequest blocked cache p fr u now req =
      { response := respond req .NoError recs
        panicked := recs.any fun r => r.rdata.isNone
        cache := c1
        pendingAfter := p
        upstreamQtype := none
        trace := [.cacheRead] } := by
  unfold handleRequest
  rw [h]

/-- Path lemma: miss, blocked domain. -/
theorem handleRequest_blocked (blocked : List String) (cache : Cache) (p : Bool)
    (fr : Option (List Record)) (u : Except Unit (List Record)) (now : Nat)
    (req : Request) (c1 : Cache)
    (h : cacheGet cache (requestCacheKey req) now = (none, c1))
    (hb : is_blocked blocked (normalizeDomain req.qname) = true) :
    handleRequest blocked cache p fr u now req =
      { response := respond req .NXDomain []
        panicked := false
        cache := alInsert c1 (requestCacheKey req) ⟨[], now + 60⟩
        pendingAfter := p
        upstreamQtype := none
        trace := [.cacheRead, .blockCheck] } := by
  unfold handleRequest
  rw [h]
  simp [hb]

/-- Path lemma: miss, not blocked, pending entry present (follower). -/
theorem handleRequest_follower (blocked : List String) (cache : Cache)
    (fr : Option (List Record)) (u : Except Unit (List Record)) (now : Nat)
    (req : Request) (c1 : Cache)
    (h : cacheGet cache (requestCacheKey req) now = (none, c1))
    (hb : is_blocked blocked (normalizeDomain req.qname) = false) :
    handleRequest blocked cache true fr u now req =
      { response :=
          match fr with
          | some recs => respond req .NoError recs
          | none => respond req .ServFail []
        panicked := false
        cache := c1
        pendingAfter := true
        upstreamQtype := none
        trace := [.cacheRead, .blockCheck] } := by
  unfold handleRequest
  rw [h]
  cases fr <;> simp [hb]

/-- Path lemma: miss, not blocked, no pending entry (leader), upstream ok. -/
theorem handleRequest_leader_ok (blocked : List String) (cache : Cache)
    (fr : Option (List Record)) (now : Nat) (req : Request) (c1 : Cache)
    (recs : List Record)
    (h : cacheGet cache (requestCacheKey req) now = (none, c1))
    (hb : is_blocked blocked (normalizeDomain req.qname) = false) :
    handleRequest blocked cache false fr (.ok recs) now req =
      { response := respond req .NoError recs
        panicked := false
        cache := alInsert c1 (requestCacheKey req) ⟨recs, now + minTtl recs⟩
        pendingAfter := false
        upstreamQtype := some req.qtype
        trace := [.cacheRead, .blockCheck, .upstreamCall] } := by
  unfold handleRequest
  rw [h]
  simp [hb]

/-- Path lemma: miss, not blocked, no pending entry (leader), upstream error. -/
theorem handleRequest_leader_err (blocked : List String) (cache : Cache)
    (fr : Option (List Record)) (now : Nat) (req : Request) (c1 : Cache)
    (e : Unit) (h : cacheGet cache (requestCacheKey req) now = (none, c1))
    (hb : is_blocked blocked (normalizeDomain req.qname) = false) :
    handleRequest blocked cache false fr (.error e) now req =
      { response := respond req .ServFail []
        panicked := false
        cache := c1
        pendingAfter := false
        upstreamQtype := some req.qtype
        trace := [.cacheRead, .blockCheck, .upstreamCall] } := by
  unfold handleRequest
  rw [h]
  simp [hb]

/-! ### Singleflight lemmas -/

/-- Reading an index of a just-updated task list: either it is the updated
slot, or the old list already held the value. -/
theorem getElem_set_cases (ts : List Phase) (i j : Nat) (a b : Phase)
    (h : (ts.set i a)[j]? = some b) :
    (i = j ∧ a = b) ∨ (i ≠ j ∧ ts[j]? = some b) := by
  by_cases hij : i = j
  · subst hij
    by_cases hlen : i < ts.length
    · rw [List.getElem?_set_self hlen] at h
      simp only [Option.some.injEq] at h
      exact Or.inl ⟨rfl, h⟩
    · rw [List.set_eq_of_length_le (Nat.le_of_not_lt hlen)] at h
      rw [List.getElem?_eq_none (Nat.le_of_not_lt hlen)] at h
      cases h
  · rw [List.getElem?_set_ne hij] at h
    exact Or.inr ⟨hij, h⟩

theorem deliverOf_eq_some (u : Except Unit (List Record)) (r : List Record)
    (h : deliverOf u = some r) : expectedOutcome u = .noErr r := by
  cases u with
  | ok r' =>
      simp only [deliverOf, Option.some.injEq] at h
      simp [expectedOutcome, h]
  | error e => simp [deliverOf] at h

theorem deliverOf_eq_none (u : Except Unit (List Record))
    (h : deliverOf u = none) : expectedOutcome u = .servFail := by
  cases u with
  | ok r' => simp [deliverOf] at h
  | error e => simp [expectedOutcome]

/-- The invariant holds initially. -/
theorem sfInv_init (u : Except Unit (List Record)) (n : Nat) :
    SFInv u (SFState.init n) := by
  have hval : ∀ (i : Nat) (p : Phase),
      (List.replicate n Phase.start)[i]? = some p → p = Phase.start := by
    intro i p h
    rw [List.getElem?_replicate] at h
    by_cases hi : i < n
    · rw [if_pos hi] at h
      simp only [Option.some.injEq] at h
      exact h.symm
    · rw [if_neg hi] at h
      cases h
  refine ⟨?_, ?_, ?_, ?_, ?_, ?_, ?_⟩
  · intro i j hi _
    exact absurd (hval i _ hi) (by decide)
  · intro _ i hi
    exact absurd (hval i _ hi) (by decide)
  · exact Nat.zero_le 1
  · intro _
    rfl
  · intro h
    exact absurd rfl h
  · intro d hd
    cases hd
  · intro i o hi
    have h := hval i _ hi
    cases h

/-- Only a resolution step touches the upstream-call counter. -/
theorem step_calls_unchanged (u : Except Unit (List Record)) (s : SFState)
    (a : Act) (h : a.isResolve = false) :
    (step u s a).upstreamCalls = s.upstreamCalls := by
  cases a with
  | claim i =>
      rcases ht : s.tasks[i]? with _ | ph
      · simp [step, ht]
      · cases ph <;> by_cases hp : s.pendingExists <;> simp [step, ht, hp]
  | resolve i => simp [Act.isResolve] at h
  | wake i =>
      rcases ht : s.tasks[i]? with _ | ph
      · simp [step, ht]
      · cases ph <;> rcases hd : s.delivered with _ | (_ | r) <;>
          simp [step, ht, hd]

theorem noClaims_claimsFirst (acts : List Act) (h : noClaims acts = true) :
    claimsFirst acts = true := by
  induction acts with
  | nil => rfl
  | cons a rest ih =>
      simp only [noClaims, Bool.and_eq_true, Bool.not_eq_true'] at h
      cases a with
      | claim i => simp [Act.isClaim] at h
      | resolve i => simp [claimsFirst, Act.isResolve, h.2]
      | wake i =>
          simp only [claimsFirst, Act.isResolve, if_false]
          exact ih h.2

/-- One scheduler step preserves the invariant, provided no claim step runs
once a resolution has already happened (the single-miss-episode condition). -/
theorem sfInv_step (u : Except Unit (List Record)) (s : SFState) (a : Act)
    (hInv : SFInv u s) (hres : s.upstreamCalls ≠ 0 → a.isClaim = false) :
    SFInv u (step u s a) := by
  cases a with
  | claim i =>
      have h0 : s.upstreamCalls = 0 := by
        by_contra hc
        have hx := hres hc
        simp [Act.isClaim] at hx
      rcases ht : s.tasks[i]? with _ | ph
      · simpa [step, ht] using hInv
      cases ph with
      | start =>
          by_cases hp : s.pendingExists = true
          · have hstep : step u s (Act.claim i) =
                { s with tasks := s.tasks.set i Phase.follower } := by
              simp [step, ht, hp]
            rw [hstep]
            refine ⟨?_, ?_, hInv.calls_le, hInv.delivered_none, ?_,
              hInv.delivered_ok, ?_⟩
            · intro j k hj hk
              rcases getElem_set_cases _ _ _ _ _ hj with ⟨rfl, hb⟩ | ⟨_, hj'⟩
              · cases hb
              rcases getElem_set_cases _ _ _ _ _ hk with ⟨rfl, hb⟩ | ⟨_, hk'⟩
              · cases hb
              exact hInv.leader_unique j k hj' hk'
            · intro hq
              rw [hp] at hq
              cases hq
            · intro hc
              exact absurd h0 hc
            · intro j o hj
              rcases getElem_set_cases _ _ _ _ _ hj with ⟨rfl, hb⟩ | ⟨_, hj'⟩
              · cases hb
              exact hInv.done_ok j o hj'
          · have hp' : s.pendingExists = false := by simpa using hp
            have hstep : step u s (Act.claim i) =
                { s with tasks := s.tasks.set i Phase.leader,
                         pendingExists := true } := by
              simp [step, ht, hp']
            rw [hstep]
            refine ⟨?_, ?_, hInv.calls_le, hInv.delivered_none, ?_,
              hInv.delivered_ok, ?_⟩
            · intro j k hj hk
              rcases getElem_set_cases _ _ _ _ _ hj with ⟨rfl, _⟩ | ⟨_, hj'⟩
              · rcases getElem_set_cases _ _ _ _ _ hk with ⟨h2, _⟩ | ⟨_, hk'⟩
                · exact h2
                · exact absurd hk' (hInv.no_pending_no_leader hp' k)
              · exact absurd hj' (hInv.no_pending_no_leader hp' j)
            · intro hq
              cases hq
            · intro hc
              exact absurd h0 hc
            · intro j o hj
              rcases getElem_set_cases _ _ _ _ _ hj with ⟨rfl, hb⟩ | ⟨_, hj'⟩
              · cases hb
              exact hInv.done_ok j o hj'
      | leader => simpa [step, ht] using hInv
      | follower => simpa [step, ht] using hInv
      | done o => simpa [step, ht] using hInv
  | resolve i =>
      rcases ht : s.tasks[i]? with _ | ph
      · simpa [step, ht] using hInv
      cases ph with
      | start => simpa [step, ht] using hInv
      | follower => simpa [step, ht] using hInv
      | done o => simpa [step, ht] using hInv
      | leader =>
          have h0 : s.upstreamCalls = 0 := by
            by_contra hc
            exact hInv.resolved_no_leader hc i ht
          have hnl : ∀ j : Nat, i ≠ j → s.tasks[j]? ≠ some Phase.leader := by
            intro j hne hj
            exact hne (hInv.leader_unique j i hj ht).symm
          cases u with
          | ok r =>
              have hstep : step (Except.ok r) s (Act.resolve i) =
                  { s with tasks := s.tasks.set i (Phase.done (Outcome.noErr r))
                           pendingExists := false
                           delivered := some (some r)
                           upstreamCalls := s.upstreamCalls + 1
                           cacheK := some r } := by
                simp [step, ht]
              rw [hstep]
              refine ⟨?_, ?_, ?_, ?_, ?_, ?_, ?_⟩
              · intro j k hj _
                rcases getElem_set_cases _ _ _ _ _ hj with ⟨rfl, hb⟩ | ⟨hne, hj'⟩
                · cases hb
                · exact absurd hj' (hnl j hne)
              · intro _ j hj
                rcases getElem_set_cases _ _ _ _ _ hj with ⟨rfl, hb⟩ | ⟨hne, hj'⟩
                · cases hb
                · exact absurd hj' (hnl j hne)
              · simp [h0]
              · intro hc
                exact absurd hc (Nat.succ_ne_zero _)
              · intro _ j hj
                rcases getElem_set_cases _ _ _ _ _ hj with ⟨rfl, hb⟩ | ⟨hne, hj'⟩
                · cases hb
                · exact absurd hj' (hnl j hne)
              · intro d hd
                simp only [Option.some.injEq] at hd
                rw [← hd]
                rfl
              · intro j o hj
                rcases getElem_set_cases _ _ _ _ _ hj with ⟨rfl, hb⟩ | ⟨_, hj'⟩
                · simp only [Phase.done.injEq] at hb
                  rw [← hb]
                  rfl
                · exact hInv.done_ok j o hj'
          | error e =>
              have hstep : step (Except.error e) s (Act.resolve i) =
                  { s with tasks := s.tasks.set i (Phase.done Outcome.servFail)
                           pendingExists := false
                           delivered := some none
                           upstreamCalls := s.upstreamCalls + 1 } := by
                simp [step, ht]
              rw [hstep]
              refine ⟨?_, ?_, ?_, ?_, ?_, ?_, ?_⟩
              · intro j k hj _
                rcases getElem_set_cases _ _ _ _ _ hj with ⟨rfl, hb⟩ | ⟨hne, hj'⟩
                · cases hb
                · exact absurd hj' (hnl j hne)
              · intro _ j hj
                rcases getElem_set_cases _ _ _ _ _ hj with ⟨rfl, hb⟩ | ⟨hne, hj'⟩
                · cases hb
                · exact absurd hj' (hnl j hne)
              · simp [h0]
              · intro hc
                exact absurd hc (Nat.succ_ne_zero _)
              · intro _ j hj
                rcases getElem_set_cases _ _ _ _ _ hj with ⟨rfl, hb⟩ | ⟨hne, hj'⟩
                · cases hb
                · exact absurd hj' (hnl j hne)
              · intro d hd
                simp only [Option.some.injEq] at hd
                rw [← hd]
                rfl
              · intro j o hj
                rcases getElem_set_cases _ _ _ _ _ hj with ⟨rfl, hb⟩ | ⟨_, hj'⟩
                · simp only [Phase.done.injEq] at hb
                  rw [← hb]
                  rfl
                · exact hInv.done_ok j o hj'
  | wake i =>
      rcases ht : s.tasks[i]? with _ | ph
      · simpa [step, ht] using hInv
      cases ph with
      | start => simpa [step, ht] using hInv
      | leader => simpa [step, ht] using hInv
      | done o => simpa [step, ht] using hInv
      | follower =>
          rcases hd : s.delivered with _ | (_ | r)
          · simpa [step, ht, hd] using hInv
          · have hexp : expectedOutcome u = Outcome.servFail :=
              deliverOf_eq_none u (hInv.delivered_ok none hd).symm
            have hstep : step u s (Act.wake i) =
                { s with tasks := s.tasks.set i (Phase.done Outcome.servFail) } := by
              simp [step, ht, hd]
            rw [hstep]
            refine ⟨?_, ?_, hInv.calls_le, hInv.delivered_none, ?_,
              hInv.delivered_ok, ?_⟩
            · intro j k hj hk
              rcases getElem_set_cases _ _ _ _ _ hj with ⟨rfl, hb⟩ | ⟨_, hj'⟩
              · cases hb
              rcases getElem_set_cases _ _ _ _ _ hk with ⟨rfl, hb⟩ | ⟨_, hk'⟩
              · cases hb
              exact hInv.leader_unique j k hj' hk'
            · intro hq j hj
              rcases getElem_set_cases _ _ _ _ _ hj with ⟨rfl, hb⟩ | ⟨_, hj'⟩
              · cases hb
              exact hInv.no_pending_no_leader hq j hj'
            · intro hc j hj
              rcases getElem_set_cases _ _ _ _ _ hj with ⟨rfl, hb⟩ | ⟨_, hj'⟩
              · cases hb
              exact hInv.resolved_no_leader hc j hj'
            · intro j o hj
              rcases getElem_set_cases _ _ _ _ _ hj with ⟨rfl, hb⟩ | ⟨_, hj'⟩
              · simp only [Phase.done.injEq] at hb
                rw [← hb, hexp]
              · exact hInv.done_ok j o hj'
          · have hexp : expectedOutcome u = Outcome.noErr r :=
              deliverOf_eq_some u r (hInv.delivered_ok (some r) hd).symm
            have hstep : step u s (Act.wake i) =
                { s with tasks :=
                    s.tasks.set i (Phase.done (Outcome.noErr r)) } := by
              simp [step, ht, hd]
            rw [hstep]
            refine ⟨?_, ?_, hInv.calls_le, hInv.delivered_none, ?_,
              hInv.delivered_ok, ?_⟩
            · intro j k hj hk
              rcases getElem_set_cases _ _ _ _ _ hj with ⟨rfl, hb⟩ | ⟨_, hj'⟩
              · cases hb
              rcases getElem_set_cases _ _ _ _ _ hk with ⟨rfl, hb⟩ | ⟨_, hk'⟩
              · cases hb
              exact hInv.leader_unique j k hj' hk'
            · intro hq j hj
              rcases getElem_set_cases _ _ _ _ _ hj with ⟨rfl, hb⟩ | ⟨_, hj'⟩
              · cases hb
              exact hInv.no_pending_no_leader hq j hj'
            · intro hc j hj
              rcases getElem_set_cases _ _ _ _ _ hj with ⟨rfl, hb⟩ | ⟨_, hj'⟩
              · cases hb
              exact hInv.resolved_no_leader hc j hj'
            · intro j o hj
              rcases getElem_set_cases _ _ _ _ _ hj with ⟨rfl, hb⟩ | ⟨_, hj'⟩
              · simp only [Phase.done.injEq] at hb
                rw [← hb, hexp]
              · exact hInv.done_ok j o hj'

/-- The invariant holds after running any schedule in which every claim step
precedes the resolution. -/
theorem sfInv_run (u : Except Unit (List Record)) (acts : List Act)
    (s : SFState) (hInv : SFInv u s) (hord : claimsFirst acts = true)
    (hres : s.upstreamCalls ≠ 0 → noClaims acts = true) :
    SFInv u (runSF u s acts) := by
  induction acts generalizing s with
  | nil => exact hInv
  | cons a rest ih =>
      have hstep : SFInv u (step u s a) := by
        apply sfInv_step u s a hInv
        intro hc
        have hnc := hres hc
        simp only [noClaims, Bool.and_eq_true, Bool.not_eq_true'] at hnc
        exact hnc.1
      have hrest : runSF u s (a :: rest) = runSF u (step u s a) rest := rfl
      rw [hrest]
      apply ih (step u s a) hstep
      · cases a with
        | claim i => exact hord
        | wake i => exact hord
        | resolve i =>
            have hnc : noClaims rest = true := by
              simpa [claimsFirst, Act.isResolve] using hord
            exact noClaims_claimsFirst rest hnc
      · intro hc
        by_cases hc0 : s.upstreamCalls = 0
        · have hrz : a.isResolve = true := by
            by_contra hr
            have hr' : a.isResolve = false := by simpa using hr
            rw [step_calls_unchanged u s a hr', hc0] at hc
            exact hc rfl
          cases a with
          | claim i => cases hrz
          | wake i => cases hrz
          | resolve i => simpa [claimsFirst, Act.isResolve] using hord
        · have hnc := hres hc0
          simp only [noClaims, Bool.and_eq_true, Bool.not_eq_true'] at hnc
          exact hnc.2

/-! ### TTL lemmas -/

theorem minTtl_spec (recs : List Record) (h : recs ≠ []) :
    minTtl recs ∈ recs.map Record.ttl ∧ ∀ r ∈ recs, minTtl recs ≤ r.ttl := by
  rcases hm : recs.map Record.ttl with _ | ⟨t, ts⟩
  · exact absurd (List.map_eq_nil_iff.mp hm) h
  · have hmin : (recs.map Record.ttl).min? = some (ts.foldl min t) := by
      rw [hm]
      rfl
    have hspec := List.min?_eq_some_iff'.mp hmin
    rw [hm] at hspec
    have hval : minTtl recs = ts.foldl min t := by
      unfold minTtl
      rw [hm]
    refine ⟨?_, ?_⟩
    · rw [hval]
      exact hspec.1
    · intro r hr
      rw [hval]
      have hmm : r.ttl ∈ t :: ts := by
        rw [← hm]
        exact List.mem_map_of_mem Record.ttl hr
      exact hspec.2 r.ttl hmm

theorem minTtl_le (recs : List Record) (r : Record) (h : r ∈ recs) :
    minTtl recs ≤ r.ttl :=
  (minTtl_spec recs (by rintro rfl; cases h)).2 r h

theorem minTtl_mem (recs : List Record) (h : recs ≠ []) :
    minTtl recs ∈ recs.map Record.ttl :=
  (minTtl_spec recs h).1

/-! ### The claims -/

/-- C8: `is_blocked` returns `true` exactly when some blocklist entry is a
plain character-wise suffix of the domain — string equality included, with no
label-boundary check — and, being a pure function of its two arguments, it
mutates nothing. -/
theorem is_blocked_iff_suffix_match (blocked : List String) (domain : String) :
    is_blocked blocked domain = true ↔
      ∃ d ∈ blocked, ∃ t : List Char, t ++ d.data = domain.data := by
  simp only [is_blocked, List.any_eq_true, List.isSuffixOf_iff_suffix]
  exact Iff.rfl

/-- C5: the cache read returns a fresh entry's records unchanged and leaves
the cache alone; at or past the expiry instant it returns `none` and evicts
the entry; and a `some` result is only ever produced strictly before the
entry's expiry instant. -/
theorem cacheGet_fresh_or_evict (cache : Cache) (k : CacheKey) (now : Nat)
    (e : CacheEntry) (recs : List Record) (c' : Cache) :
    (alLookup cache k = some e → now < e.expires_at →
      cacheGet cache k now = (some e.records, cache)) ∧
    (alLookup cache k = some e → e.expires_at ≤ now →
      cacheGet cache k now = (none, alRemove cache k) ∧
      alLookup (alRemove cache k) k = none) ∧
    (alLookup cache k = some e → cacheGet cache k now = (some recs, c') →
      now < e.expires_at ∧ recs = e.records ∧ c' = cache) ∧
    (alLookup cache k = none → cacheGet cache k now = (none, cache)) := by
  refine ⟨?_, ?_, ?_, ?_⟩
  · intro hl hf
    simp [cacheGet, hl, hf]
  · intro hl hexp
    have hnf : ¬now < e.expires_at := Nat.not_lt.mpr hexp
    exact ⟨by simp [cacheGet, hl, hnf], alLookup_alRemove_self cache k⟩
  · intro hl hg
    by_cases hf : now < e.expires_at
    · simp only [cacheGet, hl, if_pos hf, Prod.mk.injEq, Option.some.injEq]
        at hg
      exact ⟨hf, hg.1.symm, hg.2.symm⟩
    · simp [cacheGet, hl, if_neg hf] at hg
  · intro hl
    simp [cacheGet, hl]

/-- Witness for C5 at a one-entry cache holding a record with TTL 30 and
expiry instant 40: a read at 10 is a hit leaving the cache alone, a read at
40 misses and evicts. -/
theorem cacheGet_fresh_or_evict_witness :
    alLookup [(⟨"example.com", .A⟩, ⟨[⟨30, some "93.184.216.34"⟩], 40⟩)]
        ⟨"example.com", .A⟩ = some ⟨[⟨30, some "93.184.216.34"⟩], 40⟩ ∧
    (10 : Nat) < 40 ∧
    cacheGet [(⟨"example.com", .A⟩, ⟨[⟨30, some "93.184.216.34"⟩], 40⟩)]
        ⟨"example.com", .A⟩ 10 =
      (some [⟨30, some "93.184.216.34"⟩],
       [(⟨"example.com", .A⟩, ⟨[⟨30, some "93.184.216.34"⟩], 40⟩)]) ∧
    cacheGet [(⟨"example.com", .A⟩, ⟨[⟨30, some "93.184.216.34"⟩], 40⟩)]
        ⟨"example.com", .A⟩ 40 = (none, []) := by
  refine ⟨by decide, by decide, ?_, ?_⟩
  · exact (cacheGet_fresh_or_evict
      [(⟨"example.com", .A⟩, ⟨[⟨30, some "93.184.216.34"⟩], 40⟩)]
      ⟨"example.com", .A⟩ 10 ⟨[⟨30, some "93.184.216.34"⟩], 40⟩ [] []).1
      (by decide) (by decide)
  · have h := (cacheGet_fresh_or_evict
      [(⟨"example.com", .A⟩, ⟨[⟨30, some "93.184.216.34"⟩], 40⟩)]
      ⟨"example.com", .A⟩ 40 ⟨[⟨30, some "93.184.216.34"⟩], 40⟩ [] []).2.1
      (by decide) (by decide)
    rw [h.1]
    decide

/-- C6: on upstream success the leader stores the records under the request
key with expiry `now + minTtl records`, where `minTtl` is the least TTL among
the answer records and defaults to 60 on an empty record set; the blocked
path stores an empty entry with the fixed expiry `now + 60`, independent of
the query. -/
theorem cache_insert_expiry (blocked : List String) (cache : Cache)
    (p : Bool) (fr : Option (List Record)) (u : Except Unit (List Record))
    (now : Nat) (req : Request) (recs : List Record) (r : Record)
    (hmiss : (cacheGet cache (requestCacheKey req) now).1 = none) :
    (is_blocked blocked (normalizeDomain req.qname) = false →
      alLookup (handleRequest blocked cache false fr (.ok recs) now req).cache
        (requestCacheKey req) = some ⟨recs, now + minTtl recs⟩) ∧
    (is_blocked blocked (normalizeDomain req.qname) = true →
      alLookup (handleRequest blocked cache p fr u now req).cache
        (requestCacheKey req) = some ⟨[], now + 60⟩) ∧
    minTtl [] = 60 ∧
    (r ∈ recs → minTtl recs ≤ r.ttl) ∧
    (recs ≠ [] → minTtl recs ∈ recs.map Record.ttl) := by
  rcases hcg : cacheGet cache (requestCacheKey req) now with ⟨o, c1⟩
  rw [hcg] at hmiss
  simp only at hmiss
  subst hmiss
  refine ⟨?_, ?_, rfl, minTtl_le recs r, minTtl_mem recs⟩
  · intro hnb
    rw [handleRequest_leader_ok blocked cache fr now req c1 recs hcg hnb]
    exact alLookup_alInsert_self c1 (requestCacheKey req) ⟨recs, now + minTtl recs⟩
  · intro hb
    rw [handleRequest_blocked blocked cache p fr u now req c1 hcg hb]
    exact alLookup_alInsert_self c1 (requestCacheKey req) ⟨[], now + 60⟩

/-- Witness for C6: a fresh leader caching one record of TTL 30 at instant 0
for a non-blocked name, and the blocked marker for a blocked name. -/
theorem cache_insert_expiry_witness :
    (cacheGet [] (requestCacheKey ⟨⟨1, .NoError⟩, "example.com", .A⟩) 0).1 =
      none ∧
    (is_blocked [] (normalizeDomain "example.com") = false →
      alLookup (handleRequest [] [] false none
          (.ok [⟨30, some "93.184.216.34"⟩]) 0
          ⟨⟨1, .NoError⟩, "example.com", .A⟩).cache
        (requestCacheKey ⟨⟨1, .NoError⟩, "example.com", .A⟩) =
        some ⟨[⟨30, some "93.184.216.34"⟩],
              0 + minTtl [⟨30, some "93.184.216.34"⟩]⟩) ∧
    (is_blocked [] (normalizeDomain "example.com") = true →
      alLookup (handleRequest [] [] true none (.error ()) 0
          ⟨⟨1, .NoError⟩, "example.com", .A⟩).cache
        (requestCacheKey ⟨⟨1, .NoError⟩, "example.com", .A⟩) =
        some ⟨[], 0 + 60⟩) ∧
    minTtl [] = 60 ∧
    ((⟨30, some "93.184.216.34"⟩ : Record) ∈
        [(⟨30, some "93.184.216.34"⟩ : Record)] →
      minTtl [⟨30, some "93.184.216.34"⟩] ≤
        (⟨30, some "93.184.216.34"⟩ : Record).ttl) ∧
    ([(⟨30, some "93.184.216.34"⟩ : Record)] ≠ [] →
      minTtl [⟨30, some "93.184.216.34"⟩] ∈
        [(⟨30, some "93.184.216.34"⟩ : Record)].map Record.ttl) := by
  refine ⟨by decide, ?_⟩
  exact cache_insert_expiry [] [] true none (.error ()) 0
    ⟨⟨1, .NoError⟩, "example.com", .A⟩ [⟨30, some "93.184.216.34"⟩]
    ⟨30, some "93.184.216.34"⟩ (by decide)

/-- C7: every path of the handler builds its response header by cloning the
request header and changing only the response code, so every response carries
the client's own transaction id — in particular also when the answer comes
from a cache entry populated by an earlier request with a different id. -/
theorem response_transaction_id (blocked : List String) (cache : Cache)
    (p : Bool) (fr : Option (List Record)) (u : Except Unit (List Record))
    (now : Nat) (req : Request) :
    (handleRequest blocked cache p fr u now req).response.header.id =
      req.header.id := by
  rcases hcg : cacheGet cache (requestCacheKey req) now with ⟨o, c1⟩
  unfold handleRequest
  rw [hcg]
  cases o with
  | some recs => rfl
  | none =>
      by_cases hb : is_blocked blocked (normalizeDomain req.qname) = true
      · simp [hb, respond]
      · cases p <;> cases fr <;> cases u <;> simp [hb, respond]

/-- C10: on a cache hit the response is sent from the cached records, and the
log line then unwraps every record's rdata: the invocation panics exactly
when some cached record has no rdata, and completes without panicking —
the empty record set included — when every cached record carries rdata.
The send happens before the log line, so the response itself is already out
when the panic hits. -/
theorem cache_hit_log_panics_iff_missing_rdata (blocked : List String)
    (cache : Cache) (p : Bool) (fr : Option (List Record))
    (u : Except Unit (List Record)) (now : Nat) (req : Request)
    (recs : List Record) (c1 : Cache)
    (h : cacheGet cache (requestCacheKey req) now = (some recs, c1)) :
    ((handleRequest blocked cache p fr u now req).panicked = true ↔
      ∃ r ∈ recs, r.rdata = none) ∧
    ((handleRequest blocked cache p fr u now req).panicked = false ↔
      ∀ r ∈ recs, r.rdata ≠ none) ∧
    (handleRequest blocked cache p fr u now req).response =
      respond req .NoError recs := by
  rw [handleRequest_hit blocked cache p fr u now req recs c1 h]
  refine ⟨?_, ?_, rfl⟩
  · simp [List.any_eq_true, Option.isNone_iff_eq_none]
  · simp [List.any_eq_false, Option.isNone_iff_eq_none]

/-- Witness for C10: a cache hit on an entry whose single record has no
rdata. -/
theorem cache_hit_log_panics_iff_missing_rdata_witness :
    ((handleRequest [] [(⟨"x.com", .A⟩, ⟨[⟨5, none⟩], 10⟩)] false none
        (Except.error ()) 0 ⟨⟨1, .NoError⟩, "x.com", .A⟩).panicked = true ↔
      ∃ r ∈ [(⟨5, none⟩ : Record)], r.rdata = none) ∧
    ((handleRequest [] [(⟨"x.com", .A⟩, ⟨[⟨5, none⟩], 10⟩)] false none
        (Except.error ()) 0 ⟨⟨1, .NoError⟩, "x.com", .A⟩).panicked = false ↔
      ∀ r ∈ [(⟨5, none⟩ : Record)], r.rdata ≠ none) ∧
    (handleRequest [] [(⟨"x.com", .A⟩, ⟨[⟨5, none⟩], 10⟩)] false none
        (Except.error ()) 0 ⟨⟨1, .NoError⟩, "x.com", .A⟩).response =
      respond ⟨⟨1, .NoError⟩, "x.com", .A⟩ .NoError [⟨5, none⟩] :=
  cache_hit_log_panics_iff_missing_rdata [] [(⟨"x.com", .A⟩, ⟨[⟨5, none⟩], 10⟩)]
    false none (Except.error ()) 0 ⟨⟨1, .NoError⟩, "x.com", .A⟩ [⟨5, none⟩]
    [(⟨"x.com", .A⟩, ⟨[⟨5, none⟩], 10⟩)] (by decide)

/-- C1, counterexample: with blocklist `["ads.example.com"]`, the first query
for `ads.example.com.` (type A, instant 0) is answered NXDomain and caches an
empty entry expiring at 60; a repeat query at instant 30 hits that cache
entry first and is answered NoError — not NXDomain — because the cache read
precedes the blocklist check. -/
theorem blocked_repeat_query_answered_noerror :
    is_blocked ["ads.example.com"] (normalizeDomain "ads.example.com.") =
      true ∧
    (handleRequest ["ads.example.com"] [] false none (Except.error ()) 0
        ⟨⟨7, .NoError⟩, "ads.example.com.", .A⟩).response.header.response_code =
      ResponseCode.NXDomain ∧
    (handleRequest ["ads.example.com"]
        (handleRequest ["ads.example.com"] [] false none (Except.error ()) 0
          ⟨⟨7, .NoError⟩, "ads.example.com.", .A⟩).cache
        false none (Except.error ()) 30
        ⟨⟨5, .NoError⟩, "ads.example.com.", .A⟩).response.header.response_code =
      ResponseCode.NoError ∧
    ResponseCode.NoError ≠ ResponseCode.NXDomain := by
  decide

/-- C1, amended: a query for a blocked domain is answered NXDomain with zero
answer records whenever the cache holds no unexpired entry for the query's
key; a repeat query within the 60-second lifetime of the cached blocked
marker is instead served from the cache as NoError (still with zero answer
records, since the marker is empty). -/
theorem blocked_query_nxdomain_on_miss (blocked : List String) (cache : Cache)
    (p : Bool) (fr : Option (List Record)) (u : Except Unit (List Record))
    (now : Nat) (req : Request) (recs : List Record)
    (hb : is_blocked blocked (normalizeDomain req.qname) = true) :
    ((cacheGet cache (requestCacheKey req) now).1 = none →
      (handleRequest blocked cache p fr u now req).response =
        respond req .NXDomain []) ∧
    ((cacheGet cache (requestCacheKey req) now).1 = some recs →
      (handleRequest blocked cache p fr u now req).response =
        respond req .NoError recs) := by
  rcases hcg : cacheGet cache (requestCacheKey req) now with ⟨o, c1⟩
  cases o with
  | none =>
      refine ⟨fun _ => ?_, fun hr => (by cases hr)⟩
      rw [handleRequest_blocked blocked cache p fr u now req c1 hcg hb]
  | some recs0 =>
      refine ⟨fun hn => (by cases hn), fun hr => ?_⟩
      simp only [Option.some.injEq] at hr
      subst hr
      rw [handleRequest_hit blocked cache p fr u now req recs0 c1 hcg]

/-- Witness for the amended C1: the blocked first query of the C1
counterexample scenario. -/
theorem blocked_query_nxdomain_on_miss_witness :
    is_blocked ["ads.example.com"] (normalizeDomain "ads.example.com.") =
      true ∧
    ((cacheGet []
        (requestCacheKey ⟨⟨7, .NoError⟩, "ads.example.com.", .A⟩) 0).1 =
          none →
      (handleRequest ["ads.example.com"] [] false none (Except.error ()) 0
          ⟨⟨7, .NoError⟩, "ads.example.com.", .A⟩).response =
        respond ⟨⟨7, .NoError⟩, "ads.example.com.", .A⟩ .NXDomain []) ∧
    ((cacheGet []
        (requestCacheKey ⟨⟨7, .NoError⟩, "ads.example.com.", .A⟩) 0).1 =
          some [] →
      (handleRequest ["ads.example.com"] [] false none (Except.error ()) 0
          ⟨⟨7, .NoError⟩, "ads.example.com.", .A⟩).response =
        respond ⟨⟨7, .NoError⟩, "ads.example.com.", .A⟩ .NoError []) :=
  ⟨by decide,
   blocked_query_nxdomain_on_miss ["ads.example.com"] [] false none
     (Except.error ()) 0 ⟨⟨7, .NoError⟩, "ads.example.com.", .A⟩ []
     (by decide)⟩

/-- C2, counterexample: for a blocked domain whose key has a fresh cache
entry, the handler's trace is just the cache read — the blocklist is never
consulted — and the answer is NoError from the cache, contradicting
"block-check before any cache consultation". -/
theorem blocked_domain_served_without_blockcheck :
    is_blocked ["ads.example.com"] (normalizeDomain "ads.example.com.") =
      true ∧
    (handleRequest ["ads.example.com"]
        [(⟨"ads.example.com", .A⟩, ⟨[], 60⟩)] false none (Except.error ()) 30
        ⟨⟨5, .NoError⟩, "ads.example.com.", .A⟩).trace = [Event.cacheRead] ∧
    Event.blockCheck ∉
      (handleRequest ["ads.example.com"]
        [(⟨"ads.example.com", .A⟩, ⟨[], 60⟩)] false none (Except.error ()) 30
        ⟨⟨5, .NoError⟩, "ads.example.com.", .A⟩).trace ∧
    (handleRequest ["ads.example.com"]
        [(⟨"ads.example.com", .A⟩, ⟨[], 60⟩)] false none (Except.error ()) 30
        ⟨⟨5, .NoError⟩, "ads.example.com.", .A⟩).response.header.response_code =
      ResponseCode.NoError := by
  decide

/-- C2, amended: the fixed, consistent order of `handle_request` is
cache-check first: every invocation's first observable step is the cache
read, and the blocklist check happens exactly when that read misses. -/
theorem cache_read_precedes_blockcheck (blocked : List String) (cache : Cache)
    (p : Bool) (fr : Option (List Record)) (u : Except Unit (List Record))
    (now : Nat) (req : Request) :
    (handleRequest blocked cache p fr u now req).trace.head? =
      some Event.cacheRead ∧
    (Event.blockCheck ∈ (handleRequest blocked cache p fr u now req).trace ↔
      (cacheGet cache (requestCacheKey req) now).1 = none) := by
  rcases hcg : cacheGet cache (requestCacheKey req) now with ⟨o, c1⟩
  cases o with
  | some recs =>
      rw [handleRequest_hit blocked cache p fr u now req recs c1 hcg]
      exact ⟨rfl, by simp⟩
  | none =>
      by_cases hb : is_blocked blocked (normalizeDomain req.qname) = true
      · rw [handleRequest_blocked blocked cache p fr u now req c1 hcg hb]
        exact ⟨rfl, by simp⟩
      · have hb' : is_blocked blocked (normalizeDomain req.qname) = false := by
          simpa using hb
        cases p with
        | true =>
            rw [handleRequest_follower blocked cache fr u now req c1 hcg hb']
            exact ⟨rfl, by simp⟩
        | false =>
            cases u with
            | ok recs =>
                rw [handleRequest_leader_ok blocked cache fr now req c1 recs
                  hcg hb']
                exact ⟨rfl, by simp⟩
            | error e =>
                rw [handleRequest_leader_err blocked cache fr now req c1 e
                  hcg hb']
                exact ⟨rfl, by simp⟩

/-- C4: when the leader's upstream lookup fails, the handler answers ServFail
with zero answer records, writes nothing into the cache for the key (the
cache is exactly what the earlier read left), and the pending entry for the
key is removed before returning — as it also is on the success path. -/
theorem upstream_failure_servfail_clears_pending (blocked : List String)
    (cache : Cache) (fr : Option (List Record)) (now : Nat) (req : Request)
    (recs : List Record)
    (hmiss : (cacheGet cache (requestCacheKey req) now).1 = none)
    (hnb : is_blocked blocked (normalizeDomain req.qname) = false) :
    (handleRequest blocked cache false fr (Except.error ()) now req).response =
      respond req .ServFail [] ∧
    (handleRequest blocked cache false fr (Except.error ()) now
        req).response.answers = [] ∧
    (handleRequest blocked cache false fr (Except.error ()) now req).cache =
      (cacheGet cache (requestCacheKey req) now).2 ∧
    alLookup
      (handleRequest blocked cache false fr (Except.error ()) now req).cache
      (requestCacheKey req) = none ∧
    (handleRequest blocked cache false fr (Except.error ()) now
        req).pendingAfter = false ∧
    (handleRequest blocked cache false fr (Except.ok recs) now
        req).pendingAfter = false := by
  have hev := cacheGet_miss_lookup cache (requestCacheKey req) now hmiss
  rcases hcg : cacheGet cache (requestCacheKey req) now with ⟨o, c1⟩
  rw [hcg] at hmiss
  simp only at hmiss
  subst hmiss
  rw [hcg] at hev
  simp only at hev
  rw [handleRequest_leader_err blocked cache fr now req c1 () hcg hnb,
    handleRequest_leader_ok blocked cache fr now req c1 recs hcg hnb]
  exact ⟨rfl, rfl, rfl, hev, rfl, rfl⟩

/-- Witness for C4: an upstream failure for a non-blocked name on an empty
cache. -/
theorem upstream_failure_servfail_clears_pending_witness :
    (cacheGet [] (requestCacheKey ⟨⟨9, .NoError⟩, "slow.example.com", .A⟩)
        0).1 = none ∧
    (handleRequest [] [] false none (Except.error ()) 0
        ⟨⟨9, .NoError⟩, "slow.example.com", .A⟩).response =
      respond ⟨⟨9, .NoError⟩, "slow.example.com", .A⟩ .ServFail [] ∧
    (handleRequest [] [] false none (Except.error ()) 0
        ⟨⟨9, .NoError⟩, "slow.example.com", .A⟩).response.answers = [] ∧
    (handleRequest [] [] false none (Except.error ()) 0
        ⟨⟨9, .NoError⟩, "slow.example.com", .A⟩).cache =
      (cacheGet [] (requestCacheKey ⟨⟨9, .NoError⟩, "slow.example.com", .A⟩)
        0).2 ∧
    alLookup (handleRequest [] [] false none (Except.error ()) 0
        ⟨⟨9, .NoError⟩, "slow.example.com", .A⟩).cache
      (requestCacheKey ⟨⟨9, .NoError⟩, "slow.example.com", .A⟩) = none ∧
    (handleRequest [] [] false none (Except.error ()) 0
        ⟨⟨9, .NoError⟩, "slow.example.com", .A⟩).pendingAfter = false ∧
    (handleRequest [] [] false none (Except.ok []) 0
        ⟨⟨9, .NoError⟩, "slow.example.com", .A⟩).pendingAfter = false :=
  ⟨by decide,
   upstream_failure_servfail_clears_pending [] [] none 0
     ⟨⟨9, .NoError⟩, "slow.example.com", .A⟩ [] (by decide) (by decide)⟩

/-- C9: an HTTPS query's cache/pending key is built with record type A — it
is literally the key of the A query for the same name, so the two share one
cache entry and one singleflight slot — while the upstream lookup for such a
query still uses the original HTTPS query type. -/
theorem https_key_fallback_upstream_original (blocked : List String)
    (cache : Cache) (fr : Option (List Record)) (u : Except Unit (List Record))
    (now : Nat) (req : Request) (hq : req.qtype = .HTTPS)
    (hmiss : (cacheGet cache (requestCacheKey req) now).1 = none)
    (hnb : is_blocked blocked (normalizeDomain req.qname) = false) :
    (requestCacheKey req).record_type = .A ∧
    requestCacheKey req = requestCacheKey { req with qtype := .A } ∧
    (handleRequest blocked cache false fr u now req).upstreamQtype =
      some .HTTPS := by
  rcases hcg : cacheGet cache (requestCacheKey req) now with ⟨o, c1⟩
  rw [hcg] at hmiss
  simp only at hmiss
  subst hmiss
  refine ⟨?_, ?_, ?_⟩
  · simp [requestCacheKey, cacheKeyType, hq]
  · simp [requestCacheKey, cacheKeyType, hq]
  · cases u with
    | ok recs =>
        rw [handleRequest_leader_ok blocked cache fr now req c1 recs hcg hnb]
        simp [hq]
    | error e =>
        rw [handleRequest_leader_err blocked cache fr now req c1 e hcg hnb]
        simp [hq]

/-- Witness for C9: an HTTPS query for `video.example.com` on an empty
cache. -/
theorem https_key_fallback_upstream_original_witness :
    (⟨⟨3, .NoError⟩, "video.example.com", .HTTPS⟩ : Request).qtype =
      RecordType.HTTPS ∧
    (cacheGet []
      (requestCacheKey ⟨⟨3, .NoError⟩, "video.example.com", .HTTPS⟩) 0).1 =
      none ∧
    is_blocked [] (normalizeDomain "video.example.com") = false ∧
    ((requestCacheKey
        ⟨⟨3, .NoError⟩, "video.example.com", .HTTPS⟩).record_type =
      RecordType.A ∧
    requestCacheKey ⟨⟨3, .NoError⟩, "video.example.com", .HTTPS⟩ =
      requestCacheKey
        { (⟨⟨3, .NoError⟩, "video.example.com", .HTTPS⟩ : Request) with
            qtype := .A } ∧
    (handleRequest [] [] false none (Except.ok []) 0
        ⟨⟨3, .NoError⟩, "video.example.com", .HTTPS⟩).upstreamQtype =
      some .HTTPS) :=
  ⟨by decide, by decide, by decide,
   https_key_fallback_upstream_original [] [] none (Except.ok []) 0
     ⟨⟨3, .NoError⟩, "video.example.com", .HTTPS⟩ (by decide) (by decide)
     (by decide)⟩

/-- C3: for any number of concurrent queries for one key arriving during a
single miss episode (every claim step precedes the leader's resolution,
formalising "arriving while no cache entry exists"), the upstream resolver is
invoked at most once; every caller that finishes observes the outcome
dictated by the single upstream answer — all NoError with the same record
set on success, or all ServFail on failure, never a mix; and the pending
entry is the mutual-exclusion token for the key: never two leaders, and no
leader without a pending entry (the pending `HashMap` holds at most one
entry per key by construction, modelled by `pendingExists`). -/
theorem stampede_singleflight (u : Except Unit (List Record)) (n : Nat)
    (acts : List Act) (hord : claimsFirst acts = true) :
    (runSF u (SFState.init n) acts).upstreamCalls ≤ 1 ∧
    (∀ (i : Nat) (o : Outcome),
      (runSF u (SFState.init n) acts).tasks[i]? = some (Phase.done o) →
      o = expectedOutcome u) ∧
    (∀ i j : Nat,
      (runSF u (SFState.init n) acts).tasks[i]? = some Phase.leader →
      (runSF u (SFState.init n) acts).tasks[j]? = some Phase.leader →
      i = j) ∧
    ((runSF u (SFState.init n) acts).pendingExists = false →
      ∀ i : Nat,
        (runSF u (SFState.init n) acts).tasks[i]? ≠ some Phase.leader) := by
  have h := sfInv_run u acts (SFState.init n) (sfInv_init u n) hord
    (fun hc => absurd rfl hc)
  exact ⟨h.calls_le, h.done_ok, h.leader_unique, h.no_pending_no_leader⟩

/-- Witness for C3: three concurrent tasks, task 0 claiming first and
resolving to one A record, tasks 1 and 2 following. -/
theorem stampede_singleflight_witness :
    claimsFirst
      [Act.claim 0, Act.claim 1, Act.claim 2, Act.resolve 0, Act.wake 1,
        Act.wake 2] = true ∧
    ((runSF (Except.ok [⟨30, some "1.2.3.4"⟩]) (SFState.init 3)
        [Act.claim 0, Act.claim 1, Act.claim 2, Act.resolve 0, Act.wake 1,
          Act.wake 2]).upstreamCalls ≤ 1 ∧
     (∀ (i : Nat) (o : Outcome),
       (runSF (Except.ok [⟨30, some "1.2.3.4"⟩]) (SFState.init 3)
          [Act.claim 0, Act.claim 1, Act.claim 2, Act.resolve 0, Act.wake 1,
            Act.wake 2]).tasks[i]? = some (Phase.done o) →
       o = expectedOutcome (Except.ok [⟨30, some "1.2.3.4"⟩])) ∧
     (∀ i j : Nat,
       (runSF (Except.ok [⟨30, some "1.2.3.4"⟩]) (SFState.init 3)
          [Act.claim 0, Act.claim 1, Act.claim 2, Act.resolve 0, Act.wake 1,
            Act.wake 2]).tasks[i]? = some Phase.leader →
       (runSF (Except.ok [⟨30, some "1.2.3.4"⟩]) (SFState.init 3)
          [Act.claim 0, Act.claim 1, Act.claim 2, Act.resolve 0, Act.wake 1,
            Act.wake 2]).tasks[j]? = some Phase.leader →
       i = j) ∧
     ((runSF (Except.ok [⟨30, some "1.2.3.4"⟩]) (SFState.init 3)
        [Act.claim 0, Act.claim 1, Act.claim 2, Act.resolve 0, Act.wake 1,
          Act.wake 2]).pendingExists = false →
      ∀ i : Nat,
        (runSF (Except.ok [⟨30, some "1.2.3.4"⟩]) (SFState.init 3)
          [Act.claim 0, Act.claim 1, Act.claim 2, Act.resolve 0, Act.wake 1,
            Act.wake 2]).tasks[i]? ≠ some Phase.leader)) :=
  ⟨by decide,
   stampede_singleflight (Except.ok [⟨30, some "1.2.3.4"⟩]) 3
     [Act.claim 0, Act.claim 1, Act.claim 2, Act.resolve 0, Act.wake 1,
       Act.wake 2] (by decide)⟩

end RustHole
